import Mathlib

/-
  Verification development for the SPX breadth collector (src/breadth.py).

  The embedding models the pandas pipeline with exact rationals for the
  float64 payloads (closes, volumes) and an explicit IEEE-like value type
  `PF` for the results of percentage changes and of the UVOL/DVOL ratio,
  where NaN and the infinities matter:
    - a reindexed row that is absent is `none` (a NaN row);
    - `DataFrame.pct_change()` with its default `fill_method='pad'`
      (the default of every released pandas) forward-fills each Close
      column before differencing; the first row of the result is NaN;
    - comparisons `> 0`, `< 0`, `== 0` on NaN are false, `inf > 0` is true;
    - `x / 0` is `+inf` for `x > 0`, `-inf` for `x < 0`, NaN for `0 / 0`;
    - row sums skip NaN and an all-NaN row sums to 0;
    - `pd.date_range(start, end, freq)` includes BOTH endpoints.
-/

namespace Breadth

/-- IEEE-like scalar produced by pandas float operations: a finite rational,
either infinity, or NaN. -/
inductive PF where
  | nan : PF
  | pinf : PF
  | ninf : PF
  | fin : ℚ → PF
deriving DecidableEq

/-- Pandas comparison `x > 0` on a float scalar: NaN compares false,
`+inf > 0` is true. -/
def PF.isPos : PF → Bool
  | .pinf => true
  | .fin q => decide (0 < q)
  | _ => false

/-- Pandas comparison `x < 0`: NaN compares false, `-inf < 0` is true. -/
def PF.isNeg : PF → Bool
  | .ninf => true
  | .fin q => decide (q < 0)
  | _ => false

/-- Pandas comparison `x == 0`: NaN compares false, infinities are nonzero. -/
def PF.isZero : PF → Bool
  | .fin q => decide (q = 0)
  | _ => false

/-- NaN test (`pd.isna` on a float scalar; infinities are NOT NaN). -/
def PF.isNan : PF → Bool
  | .nan => true
  | _ => false

/-- Pandas/numpy float division of two finite values: exact when the divisor
is nonzero, `±inf` for `x / 0` with `x ≠ 0`, NaN for `0 / 0`. -/
def fdiv (a b : ℚ) : PF :=
  if b = 0 then
    (if 0 < a then PF.pinf else if a < 0 then PF.ninf else PF.nan)
  else PF.fin (a / b)

/-- One OHLCV bar for one ticker at one timestamp (src/breadth.py line 39
keeps the columns Open, High, Low, Close, Volume). -/
structure Bar where
  op : ℚ
  hi : ℚ
  lo : ℚ
  cl : ℚ
  vol : ℚ
deriving DecidableEq

abbrev Ticker := String

/-- The Combined Frame (src/breadth.py lines 57-59): a shared time index and,
per ticker, one aligned column of optional bars (`none` is a NaN row produced
by `reindex`). Timestamps are minutes of the trading day. -/
structure Frame where
  index : List ℕ
  cols : List (Ticker × List (Option Bar))
deriving DecidableEq

/-- `get_market_open_close` (lines 13-17): 9:30 and 12:30 New York time,
as minutes of the day. The close is three hours after the open. -/
def get_market_open_close : ℕ × ℕ := (9 * 60 + 30, 12 * 60 + 30)

/-- `pd.date_range(start, end, freq='1min')` (line 51): every minute from
`start` to `stop`, both endpoints INCLUDED (pandas `inclusive='both'`
default). -/
def date_range (start stop : ℕ) : List ℕ :=
  (List.range (stop - start + 1)).map (fun i => i + start)

/-- The common index of line 51, built from the session window. -/
def common_index : List ℕ :=
  date_range get_market_open_close.1 get_market_open_close.2

/-- `get_sector` (lines 19-25). The black-box `yf.Ticker(t).info` call is
modelled by its outcome: an exception, or a dict in which the key `sector`
is absent or bound to a string. `info.get('sector', 'Unknown')` returns the
default when the key is absent; the `except` clause returns `'Unknown'`. -/
def get_sector (info : Except String (Option String)) : String :=
  match info with
  | .error _ => "Unknown"
  | .ok none => "Unknown"
  | .ok (some s) => s

/-- `reindex(common_index)` (lines 54-55): for every timestamp of the index,
the original row when one exists, otherwise a NaN row (`none`). -/
def reindex (series : List (ℕ × Bar)) (idx : List ℕ) : List (Option Bar) :=
  idx.map (fun t => (series.find? (fun p => decide (p.1 = t))).map Prod.snd)

/-- Forward fill of an optional column, carrying the last observed value. -/
def ffillAux (last : Option ℚ) : List (Option ℚ) → List (Option ℚ)
  | [] => []
  | x :: xs =>
      let cur := x.orElse (fun _ => last)
      cur :: ffillAux cur xs

/-- Forward fill (`fillna(method='pad')`), starting with nothing observed. -/
def ffill (xs : List (Option ℚ)) : List (Option ℚ) := ffillAux none xs

/-- One `pct_change` cell from the padded previous and current values:
`cur / prev - 1`, NaN when either is missing, and IEEE behaviour when the
previous value is zero. -/
def pctCell (prev cur : Option ℚ) : PF :=
  match prev, cur with
  | some p, some c =>
      if p = 0 then
        (if 0 < c then PF.pinf else if c < 0 then PF.ninf else PF.nan)
      else PF.fin (c / p - 1)
  | _, _ => PF.nan

/-- `Series.pct_change()` with the default `fill_method='pad'` (line 78):
pad the column, then divide each value by its predecessor minus one; the
first cell is NaN. -/
def pct_change (closes : List (Option ℚ)) : List PF :=
  let filled := ffill closes
  (List.range closes.length).map (fun k =>
    if k = 0 then PF.nan
    else pctCell (filled.getD (k - 1) none) (filled.getD k none))

/-- The percent-change column of one ticker (line 78 applied columnwise). -/
def tickerChanges (col : List (Option Bar)) : List PF :=
  pct_change (col.map (Option.map Bar.cl))

/-- The percent change of one ticker column at period `k` (NaN out of
range). -/
def changeAt (c : Ticker × List (Option Bar)) (k : ℕ) : PF :=
  (tickerChanges c.2).getD k PF.nan

/-- `(price_changes > 0).sum(axis=1)` at one period (line 81). -/
def advancesAt (cols : List (Ticker × List (Option Bar))) (k : ℕ) : ℕ :=
  cols.countP (fun c => PF.isPos (changeAt c k))

/-- `(price_changes < 0).sum(axis=1)` at one period (line 82). -/
def declinesAt (cols : List (Ticker × List (Option Bar))) (k : ℕ) : ℕ :=
  cols.countP (fun c => PF.isNeg (changeAt c k))

/-- `(price_changes == 0).sum(axis=1)` at one period (line 83). -/
def unchangedAt (cols : List (Ticker × List (Option Bar))) (k : ℕ) : ℕ :=
  cols.countP (fun c => PF.isZero (changeAt c k))

/-- The volume cell of one ticker column at period `k` as summed by pandas:
a NaN (absent) volume contributes 0 to a row sum. -/
def volAt (c : Ticker × List (Option Bar)) (k : ℕ) : ℚ :=
  ((c.2.getD k none).map Bar.vol).getD 0

/-- `volume_data[price_changes > 0].sum(axis=1)` at one period (line 87):
volumes of the advancing tickers, NaN skipped, empty sum 0. -/
def uvolPerAt (cols : List (Ticker × List (Option Bar))) (k : ℕ) : ℚ :=
  (cols.map (fun c => if PF.isPos (changeAt c k) then volAt c k else 0)).sum

/-- `volume_data[price_changes < 0].sum(axis=1)` at one period (line 88). -/
def dvolPerAt (cols : List (Ticker × List (Option Bar))) (k : ℕ) : ℚ :=
  (cols.map (fun c => if PF.isNeg (changeAt c k) then volAt c k else 0)).sum

/-- `Series.cumsum()`: entry `k` is the sum of the first `k + 1` entries. -/
def cumsum {α : Type} [Add α] [Zero α] (xs : List α) : List α :=
  (List.range xs.length).map (fun k => (xs.take (k + 1)).sum)

/-- The indicator table built by `calculate_market_indicators`
(lines 76-94): one row per index entry, one column per indicator. -/
structure IndicatorTable where
  index : List ℕ
  advances : List ℕ
  declines : List ℕ
  unchanged : List ℕ
  ad_line : List ℤ
  uvol : List ℚ
  dvol : List ℚ
  vold : List ℚ
  vold_ratio : List PF
deriving DecidableEq

/-- `calculate_market_indicators` (lines 76-94), the per-line translation:
counts of advancing / declining / unchanged tickers per period, the
cumulative AD line, cumulative up and down volume, their difference and
their (IEEE) ratio. -/
def calculate_market_indicators (data : Frame) : IndicatorTable :=
  let n := data.index.length
  let advances := (List.range n).map (fun k => advancesAt data.cols k)
  let declines := (List.range n).map (fun k => declinesAt data.cols k)
  let unchanged := (List.range n).map (fun k => unchangedAt data.cols k)
  let ad_line := cumsum (List.zipWith (fun (a d : ℕ) => (a : ℤ) - (d : ℤ)) advances declines)
  let uvol := cumsum ((List.range n).map (fun k => uvolPerAt data.cols k))
  let dvol := cumsum ((List.range n).map (fun k => dvolPerAt data.cols k))
  let vold := List.zipWith (fun a b => a - b) uvol dvol
  let vold_ratio := List.zipWith fdiv uvol dvol
  ⟨data.index, advances, declines, unchanged, ad_line, uvol, dvol, vold, vold_ratio⟩

/-- The fetch loop (lines 33-44): per ticker, the black-box
`stock.history(...)` outcome is an exception or a bar list; only tickers
with a non-empty successful result enter `all_data` (lines 38-44). -/
def build_all_data (results : List (Ticker × Except String (List (ℕ × Bar)))) :
    List (Ticker × List (ℕ × Bar)) :=
  results.filterMap (fun p =>
    match p.2 with
    | .error _ => none
    | .ok bars => if bars.isEmpty then none else some (p.1, bars))

/-- The sectors dict (lines 31, 40): one entry per surviving ticker; the
black-box sector lookup result is the function `secOf`. -/
def sectorsOf (cols : List (Ticker × List (Option Bar))) (secOf : Ticker → String) :
    List (Ticker × String) :=
  cols.map (fun c => (c.1, secOf c.1))

/-- `[ticker for ticker, sec in sectors.items() if sec == sector]` (line 67). -/
def sectorTickers (sectors : List (Ticker × String)) (s : String) : List Ticker :=
  (sectors.filter (fun p => decide (p.2 = s))).map Prod.fst

/-- `set(sectors.values())` (line 66), as a duplicate-free list. -/
def sectorValues (sectors : List (Ticker × String)) : List String :=
  (sectors.map Prod.snd).dedup

/-- `combined_data[sector_tickers]` (line 68): the sub-frame holding, in
order, the requested tickers' columns, each looked up by name. -/
def selectCols (d : Frame) (ts : List Ticker) : Frame :=
  ⟨d.index,
   ts.filterMap (fun t =>
     (d.cols.find? (fun c => decide (c.1 = t))).map (fun c => (t, c.2)))⟩

/-- The all-fields-empty table standing for `pd.DataFrame()` (line 48). -/
def emptyIndicatorTable : IndicatorTable := ⟨[], [], [], [], [], [], [], [], []⟩

/-- `calculate_indicators` (lines 27-74) after the black-box fetches:
if no ticker survived, three empty outputs (line 48); otherwise reindex
every surviving series to the common index (lines 51-55), build the
Combined Frame (lines 57-59), compute universe indicators (line 62) and
one indicator table per distinct sector (lines 64-72). -/
def calculate_indicators (results : List (Ticker × Except String (List (ℕ × Bar))))
    (secOf : Ticker → String) :
    Frame × IndicatorTable × List (String × IndicatorTable) :=
  let all_data := build_all_data results
  if all_data.isEmpty then
    (⟨[], []⟩, emptyIndicatorTable, [])
  else
    let idx := common_index
    let combined : Frame := ⟨idx, all_data.map (fun p => (p.1, reindex p.2 idx))⟩
    let indicators := calculate_market_indicators combined
    let sectors := sectorsOf combined.cols secOf
    let secInds := (sectorValues sectors).map (fun s =>
      (s, calculate_market_indicators (selectCols combined (sectorTickers sectors s))))
    (combined, indicators, secInds)

/-
  State-threaded model of the pandas effects, for the frame-effect claim.
  Every pandas operation used by `calculate_market_indicators` allocates a
  new object and leaves its input frame unchanged: `.xs` (column selection),
  `.pct_change()`, the comparisons, boolean masking, `.sum(axis=1)`,
  `.cumsum()`, arithmetic on series, and assignment of columns into the
  freshly created `indicators` frame of line 77. Each modelled step
  therefore returns the input frame together with its result.
-/

/-- `data.xs(field, axis=1, level=1)` (lines 78-79): selects a field from
every ticker column into a new table; the input frame is returned
unchanged. -/
def xs_st (field : Bar → ℚ) (d : Frame) : Frame × List (Ticker × List (Option ℚ)) :=
  (d, d.cols.map (fun c => (c.1, c.2.map (Option.map field))))

/-- `.pct_change()` applied to the selected Close table (line 78): builds a
new table of changes; the frame is unchanged. -/
def pct_change_st (d : Frame) (closes : List (Ticker × List (Option ℚ))) :
    Frame × List (Ticker × List PF) :=
  (d, closes.map (fun c => (c.1, pct_change c.2)))

/-- `calculate_market_indicators` with the frame effect made explicit: the
selections and the change computation are threaded, the remaining steps
(counts, sums, cumulative sums, writes into the fresh `indicators` frame)
only read the intermediate tables, and the input frame comes back
unchanged next to the indicator table. -/
def calculate_market_indicators_st (data : Frame) : Frame × IndicatorTable :=
  let s1 := xs_st Bar.cl data
  let s2 := pct_change_st s1.1 s1.2
  let s3 := xs_st Bar.vol s2.1
  (s3.1, calculate_market_indicators s3.1)

/-- `combined_data[sector_tickers]` as an effect step: allocates the
sub-frame, leaves the combined frame unchanged. -/
def selectCols_st (d : Frame) (ts : List Ticker) : Frame × Frame :=
  (d, selectCols d ts)

/-- The sector loop of lines 66-69, threading the combined frame through
each selection and indicator computation. -/
def sectorLoop (sectors : List (Ticker × String)) :
    Frame → List String → Frame × List (String × IndicatorTable)
  | d, [] => (d, [])
  | d, s :: rest =>
      let sel := selectCols_st d (sectorTickers sectors s)
      let r := calculate_market_indicators_st sel.2
      let tail := sectorLoop sectors sel.1 rest
      (tail.1, (s, r.2) :: tail.2)

/-- Lines 62-69 in program order: universe indicators first, then the
sector loop, threading the combined frame throughout. -/
def run_universe_then_sectors (d : Frame) (secOf : Ticker → String) :
    Frame × IndicatorTable × List (String × IndicatorTable) :=
  let u := calculate_market_indicators_st d
  let sl := sectorLoop (sectorsOf d.cols secOf) u.1 (sectorValues (sectorsOf d.cols secOf))
  (sl.1, u.2, sl.2)

/-- The hypothetical opposite order: sector loop first, then the universe
indicators on whatever frame the loop left behind. -/
def run_sectors_then_universe (d : Frame) (secOf : Ticker → String) :
    Frame × IndicatorTable × List (String × IndicatorTable) :=
  let sl := sectorLoop (sectorsOf d.cols secOf) d (sectorValues (sectorsOf d.cols secOf))
  let u := calculate_market_indicators_st sl.1
  (u.1, u.2, sl.2)

/-- A bar with the given close and volume (the other fields are irrelevant
to the indicators). -/
def mkBar (c v : ℚ) : Bar := ⟨0, 0, 0, c, v⟩

/-- A one-ticker frame over two minutes with a rising close: its cumulative
DVOL stays at zero while its cumulative UVOL becomes positive. -/
def exFrame : Frame := ⟨[0, 1], [("A", [some (mkBar 1 10), some (mkBar 2 10)])]⟩

/-- A raw series with bars at minutes 0 and 2 but no bar at minute 1. -/
def gapSeries : List (ℕ × Bar) := [(0, mkBar 1 10), (2, mkBar 2 10)]

/-- The aligned one-ticker frame built from `gapSeries` over minutes
0, 1, 2. -/
def gapFrame : Frame := ⟨[0, 1, 2], [("A", reindex gapSeries [0, 1, 2])]⟩

/-- A three-ticker frame over two minutes: A rises, B falls, C is flat. -/
def twoSectorFrame : Frame :=
  ⟨[0, 1],
   [("A", [some (mkBar 1 10), some (mkBar 2 10)]),
    ("B", [some (mkBar 4 7), some (mkBar 3 7)]),
    ("C", [some (mkBar 5 2), some (mkBar 5 2)])]⟩

/-- A sector assignment splitting `twoSectorFrame` into two sectors. -/
def twoSectorOf : Ticker → String := fun t => if t = "A" then "Tech" else "Energy"

/-- Fetch outcomes in which every ticker fails or comes back empty. -/
def failedResults : List (Ticker × Except String (List (ℕ × Bar))) :=
  [("A", Except.error "HTTPError"), ("B", Except.ok [])]

/-- All volumes stored in a frame are nonnegative (reading each cell the
way the row sums do: an absent cell reads as 0). -/
def Frame.volNonneg (d : Frame) : Prop :=
  ∀ c ∈ d.cols, ∀ ob ∈ c.2, (0 : ℚ) ≤ (ob.map Bar.vol).getD 0

instance (d : Frame) : Decidable d.volNonneg := by
  unfold Frame.volNonneg
  infer_instance

/-! ### Helper lemmas about list indexing, cumulative sums and the table -/

theorem getD_range_map {α : Type} {n k : ℕ} (f : ℕ → α) (d : α) (hk : k < n) :
    ((List.range n).map f).getD k d = f k := by
  rw [List.getD_eq_getElem _ _ (by simpa using hk)]
  simp

theorem getD_map_lt {α β : Type} (l : List α) (f : α → β) {k : ℕ} (d : β) (d0 : α)
    (hk : k < l.length) :
    (l.map f).getD k d = f (l.getD k d0) := by
  rw [List.getD_eq_getElem _ _ (by simpa using hk), List.getD_eq_getElem _ _ hk]
  simp

theorem getD_zipWith_lt {α β γ : Type} (f : α → β → γ) (as : List α) (bs : List β)
    {k : ℕ} (d : γ) (da : α) (db : β) (ha : k < as.length) (hb : k < bs.length) :
    (List.zipWith f as bs).getD k d = f (as.getD k da) (bs.getD k db) := by
  rw [List.getD_eq_getElem _ _ (by rw [List.length_zipWith]; omega),
    List.getD_eq_getElem _ _ ha, List.getD_eq_getElem _ _ hb]
  exact List.getElem_zipWith

theorem take_eq_range_map {α : Type} (xs : List α) (d : α) (m : ℕ) (hm : m ≤ xs.length) :
    xs.take m = (List.range m).map (fun i => xs.getD i d) := by
  apply List.ext_getElem
  · simpa using hm
  · intro i h1 h2
    have hi : i < m := by simpa using h2
    have hix : i < xs.length := lt_of_lt_of_le hi hm
    simp only [List.getElem_take, List.getElem_map, List.getElem_range]
    rw [List.getD_eq_getElem _ _ hix]

theorem length_cumsum {α : Type} [Add α] [Zero α] (xs : List α) :
    (cumsum xs).length = xs.length := by
  simp [cumsum]

theorem cumsum_getD {α : Type} [AddCommMonoid α] (xs : List α) {k : ℕ}
    (hk : k < xs.length) :
    (cumsum xs).getD k 0 = ((List.range (k + 1)).map (fun i => xs.getD i 0)).sum := by
  unfold cumsum
  rw [getD_range_map _ _ hk, take_eq_range_map xs 0 (k + 1) hk]

theorem calc_advances_getD (d : Frame) {k : ℕ} (hk : k < d.index.length) :
    (calculate_market_indicators d).advances.getD k 0 = advancesAt d.cols k := by
  simp only [calculate_market_indicators]
  exact getD_range_map _ _ hk

theorem calc_declines_getD (d : Frame) {k : ℕ} (hk : k < d.index.length) :
    (calculate_market_indicators d).declines.getD k 0 = declinesAt d.cols k := by
  simp only [calculate_market_indicators]
  exact getD_range_map _ _ hk

theorem calc_unchanged_getD (d : Frame) {k : ℕ} (hk : k < d.index.length) :
    (calculate_market_indicators d).unchanged.getD k 0 = unchangedAt d.cols k := by
  simp only [calculate_market_indicators]
  exact getD_range_map _ _ hk

/-! ### C9 -/

/-- C9: when the sector lookup raises or the metadata carries no sector
entry, `get_sector` substitutes the sentinel `"Unknown"`; being a total
function of the lookup outcome, it never aborts the run. -/
theorem C9_sector_lookup_unknown :
    (∀ e : String, get_sector (Except.error e) = "Unknown") ∧
      get_sector (Except.ok none) = "Unknown" :=
  ⟨fun _ => rfl, rfl⟩

/-! ### C2 -/

set_option maxRecDepth 4000 in
/-- C2 counterexample: the canonical Time Index built by
`pd.date_range(open, close, freq='1min')` has 181 entries, not 180, and it
DOES include the window-end timestamp (the market close). -/
theorem C2_counterexample :
    common_index.length = 181 ∧ ¬ common_index.length = 180 ∧
      get_market_open_close.2 ∈ common_index := by
  decide

/-- C2 amended: the canonical Time Index consists of exactly the minutes of
the CLOSED interval [market open, market open + 3 hours] at 1-minute
granularity — session window ÷ granularity + 1 = 181 entries, the window-end
timestamp included. -/
theorem C2_amended_time_index :
    common_index.length = (get_market_open_close.2 - get_market_open_close.1) + 1 ∧
      ∀ t : ℕ, t ∈ common_index ↔
        (get_market_open_close.1 ≤ t ∧ t ≤ get_market_open_close.2) := by
  constructor
  · simp [common_index, date_range, get_market_open_close]
  · intro t
    simp only [common_index, date_range, get_market_open_close, List.mem_map,
      List.mem_range]
    constructor
    · rintro ⟨i, hi, rfl⟩
      omega
    · rintro ⟨h1, h2⟩
      exact ⟨t - (9 * 60 + 30), by omega, by omega⟩

/-! ### C4 -/

/-- C4 counterexample: with every fetch failing or empty, the run returns
three outputs whose index is EMPTY — length 0, not the session-window
length of 180 claimed (nor the 181 the non-empty path would build). -/
theorem C4_counterexample :
    (calculate_indicators failedResults (fun _ => "Unknown")).1.index.length = 0 ∧
      ¬ (calculate_indicators failedResults (fun _ => "Unknown")).1.index.length = 180 := by
  refine ⟨rfl, ?_⟩
  intro h
  rw [show (calculate_indicators failedResults (fun _ => "Unknown")).1.index.length = 0
    from rfl] at h
  exact (by decide : ¬ (0 = 180)) h

/-- C4 amended: when zero tickers yield data, the run still completes and
returns three empty outputs — a frame with no index and no columns, an
all-empty indicator table, and no sector tables — rather than raising; no
session-length Time Index is built on this path. -/
theorem C4_amended_empty_run (results : List (Ticker × Except String (List (ℕ × Bar))))
    (secOf : Ticker → String) (h : build_all_data results = []) :
    calculate_indicators results secOf = (⟨[], []⟩, emptyIndicatorTable, []) := by
  simp [calculate_indicators, h]

/-- Witness for C4: the amended statement applied to concrete outcomes in
which one fetch raises and the other returns no bars. -/
theorem C4_witness :
    calculate_indicators failedResults (fun _ => "Unknown") =
      (⟨[], []⟩, emptyIndicatorTable, []) :=
  C4_amended_empty_run failedResults (fun _ => "Unknown") (by decide)

/-! ### C5 -/

/-- C5: at every period of the indicator table, VOLD equals UVOL minus DVOL
exactly, UVOL and DVOL being the cumulative columns of the table. -/
theorem C5_vold_eq_uvol_sub_dvol (d : Frame) (k : ℕ) (hk : k < d.index.length) :
    (calculate_market_indicators d).vold.getD k 0 =
      (calculate_market_indicators d).uvol.getD k 0 -
        (calculate_market_indicators d).dvol.getD k 0 := by
  simp only [calculate_market_indicators]
  exact getD_zipWith_lt (fun a b => a - b) _ _ 0 0 0
    (by simp [length_cumsum]; exact hk) (by simp [length_cumsum]; exact hk)

/-- Witness for C5 at a concrete frame and period. -/
theorem C5_witness :
    (calculate_market_indicators exFrame).vold.getD 1 0 =
      (calculate_market_indicators exFrame).uvol.getD 1 0 -
        (calculate_market_indicators exFrame).dvol.getD 1 0 :=
  C5_vold_eq_uvol_sub_dvol exFrame 1 (by decide)

/-! ### C6 -/

/-- C6: at every period `k`, the AD line equals the running sum of
(Advances − Declines) over the periods up to and including `k`, starting
from zero before the first period. -/
theorem C6_ad_line_running_sum (d : Frame) (k : ℕ) (hk : k < d.index.length) :
    (calculate_market_indicators d).ad_line.getD k 0 =
      ((List.range (k + 1)).map (fun i =>
        ((calculate_market_indicators d).advances.getD i 0 : ℤ) -
          ((calculate_market_indicators d).declines.getD i 0 : ℤ))).sum := by
  simp only [calculate_market_indicators]
  rw [cumsum_getD _ (by rw [List.length_zipWith]; simpa using hk)]
  apply congrArg List.sum
  apply List.map_congr_left
  intro i hi
  have hik : i < d.index.length := by
    have := List.mem_range.mp hi
    omega
  rw [getD_zipWith_lt _ _ _ 0 0 0 (by simpa using hik) (by simpa using hik),
    getD_range_map _ _ hik, getD_range_map _ _ hik]

/-- Witness for C6 at a concrete frame and period. -/
theorem C6_witness :
    (calculate_market_indicators gapFrame).ad_line.getD 2 0 =
      ((List.range 3).map (fun i =>
        ((calculate_market_indicators gapFrame).advances.getD i 0 : ℤ) -
          ((calculate_market_indicators gapFrame).declines.getD i 0 : ℤ))).sum :=
  C6_ad_line_running_sum gapFrame 2 (by decide)

/-! ### C1 -/

theorem volAt_nonneg (d : Frame) (hd : d.volNonneg) (c : Ticker × List (Option Bar))
    (hc : c ∈ d.cols) (k : ℕ) : 0 ≤ volAt c k := by
  unfold volAt
  rcases Nat.lt_or_ge k c.2.length with hk | hk
  · have hmem : c.2.getD k none ∈ c.2 := by
      rw [List.getD_eq_getElem _ _ hk]
      exact List.getElem_mem hk
    exact hd c hc _ hmem
  · rw [List.getD_eq_default _ _ hk]
    norm_num

theorem uvolPerAt_nonneg (d : Frame) (hd : d.volNonneg) (k : ℕ) :
    0 ≤ uvolPerAt d.cols k := by
  apply List.sum_nonneg
  intro x hx
  rcases List.mem_map.mp hx with ⟨c, hc, rfl⟩
  by_cases h : PF.isPos (changeAt c k)
  · simpa [h] using volAt_nonneg d hd c hc k
  · simp [h]

theorem uvol_getD_nonneg (d : Frame) (hd : d.volNonneg) {k : ℕ}
    (hk : k < d.index.length) :
    0 ≤ (calculate_market_indicators d).uvol.getD k 0 := by
  simp only [calculate_market_indicators]
  rw [cumsum_getD _ (by simpa using hk)]
  apply List.sum_nonneg
  intro x hx
  rcases List.mem_map.mp hx with ⟨i, hi, rfl⟩
  have hik : i < d.index.length := by
    have := List.mem_range.mp hi
    omega
  rw [getD_range_map _ _ hik]
  exact uvolPerAt_nonneg d hd i

/-- C1 counterexample: on a one-ticker rising frame, at period 1 the
cumulative DVOL is zero yet VOLD_Ratio is `+inf` — pandas division of a
positive UVOL by a zero DVOL yields infinity, an ordinary numeric float,
not the missing marker the claim requires. -/
theorem C1_counterexample :
    (calculate_market_indicators exFrame).dvol.getD 1 0 = 0 ∧
      (calculate_market_indicators exFrame).vold_ratio.getD 1 PF.nan = PF.pinf ∧
      PF.pinf ≠ PF.nan :=
  ⟨by with_unfolding_all rfl, by with_unfolding_all rfl, by decide⟩

/-- C1 amended: when the cumulative DVOL at period `k` is zero, computing
VOLD_Ratio never raises and never yields zero; it yields the NaN missing
marker when the cumulative UVOL is also zero, and `+inf` when the
cumulative UVOL is positive. -/
theorem C1_amended_ratio_at_zero_dvol (d : Frame) (k : ℕ) (hvol : d.volNonneg)
    (hk : k < d.index.length)
    (hdz : (calculate_market_indicators d).dvol.getD k 0 = 0) :
    ((calculate_market_indicators d).vold_ratio.getD k PF.nan =
      if (calculate_market_indicators d).uvol.getD k 0 = 0 then PF.nan else PF.pinf) ∧
      ∀ q : ℚ, (calculate_market_indicators d).vold_ratio.getD k PF.nan ≠ PF.fin q := by
  have hu : 0 ≤ (calculate_market_indicators d).uvol.getD k 0 :=
    uvol_getD_nonneg d hvol hk
  have hratio : (calculate_market_indicators d).vold_ratio.getD k PF.nan =
      fdiv ((calculate_market_indicators d).uvol.getD k 0)
        ((calculate_market_indicators d).dvol.getD k 0) := by
    simp only [calculate_market_indicators]
    exact getD_zipWith_lt fdiv _ _ PF.nan 0 0
      (by simp [length_cumsum]; exact hk) (by simp [length_cumsum]; exact hk)
  rw [hratio, hdz]
  unfold fdiv
  rcases eq_or_lt_of_le hu with h0 | hpos
  · rw [← h0]
    simp
  · constructor
    · rw [if_pos rfl, if_pos hpos, if_neg (ne_of_gt hpos)]
    · intro q
      rw [if_pos rfl, if_pos hpos]
      simp

/-- Witness for the amended C1 at a concrete frame and period with zero
cumulative DVOL and positive cumulative UVOL. -/
theorem C1_witness :
    ((calculate_market_indicators exFrame).vold_ratio.getD 1 PF.nan =
      if (calculate_market_indicators exFrame).uvol.getD 1 0 = 0 then PF.nan
      else PF.pinf) ∧
      ∀ q : ℚ, (calculate_market_indicators exFrame).vold_ratio.getD 1 PF.nan ≠
        PF.fin q :=
  C1_amended_ratio_at_zero_dvol exFrame 1 (by decide) (by decide)
    (by with_unfolding_all rfl)

/-! ### C7 -/

theorem PF.counted (x : PF) :
    ((if PF.isPos x then 1 else 0) + (if PF.isNeg x then 1 else 0) +
      (if PF.isZero x then 1 else 0) : ℕ) = if PF.isNan x then 0 else 1 := by
  cases x with
  | nan => rfl
  | pinf => rfl
  | ninf => rfl
  | fin q =>
      simp only [PF.isPos, PF.isNeg, PF.isZero, PF.isNan]
      rcases lt_trichotomy q 0 with h | h | h
      · simp [h, not_lt_of_gt h, ne_of_lt h]
      · simp [h]
      · simp [h, not_lt_of_gt h, (ne_of_gt h)]

theorem counts_split (cols : List (Ticker × List (Option Bar))) (k : ℕ) :
    advancesAt cols k + declinesAt cols k + unchangedAt cols k =
      cols.countP (fun c => !(PF.isNan (changeAt c k))) := by
  induction cols with
  | nil => rfl
  | cons c rest ih =>
      have hx := PF.counted (changeAt c k)
      have hcnt : (if (!(PF.isNan (changeAt c k))) = true then 1 else 0) =
          if PF.isNan (changeAt c k) then 0 else 1 := by
        cases PF.isNan (changeAt c k) <;> simp
      simp only [advancesAt, declinesAt, unchangedAt, List.countP_cons] at ih ⊢
      omega

theorem pct_change_getD_zero (closes : List (Option ℚ)) :
    (pct_change closes).getD 0 PF.nan = PF.nan := by
  unfold pct_change
  rcases Nat.eq_zero_or_pos closes.length with h | h
  · simp [h]
  · rw [getD_range_map _ _ h]
    simp

/-- The percent change at the first period is always the missing marker:
there is no preceding close. -/
theorem changeAt_zero (c : Ticker × List (Option Bar)) : changeAt c 0 = PF.nan := by
  unfold changeAt tickerChanges
  exact pct_change_getD_zero _

/-- C7: per period, Advances + Declines + Unchanged never exceeds the
number of tickers of the (sub-)frame; equality holds exactly when no ticker
has a missing (NaN) percent change at that period; and at the first period,
where no prior close exists, all three counts are zero. -/
theorem C7_counts_partition (d : Frame) (k : ℕ) (hne : d.cols ≠ [])
    (hk : k < d.index.length) :
    ((calculate_market_indicators d).advances.getD k 0 +
      (calculate_market_indicators d).declines.getD k 0 +
      (calculate_market_indicators d).unchanged.getD k 0 ≤ d.cols.length) ∧
    ((calculate_market_indicators d).advances.getD k 0 +
      (calculate_market_indicators d).declines.getD k 0 +
      (calculate_market_indicators d).unchanged.getD k 0 = d.cols.length ↔
      ∀ c ∈ d.cols, PF.isNan (changeAt c k) = false) ∧
    (k = 0 →
      (calculate_market_indicators d).advances.getD k 0 = 0 ∧
      (calculate_market_indicators d).declines.getD k 0 = 0 ∧
      (calculate_market_indicators d).unchanged.getD k 0 = 0) := by
  rw [calc_advances_getD d hk, calc_declines_getD d hk, calc_unchanged_getD d hk,
    counts_split]
  refine ⟨List.countP_le_length _, ?_, ?_⟩
  · rw [List.countP_eq_length]
    constructor
    · intro h c hc
      have := h c hc
      simpa using this
    · intro h c hc
      simp [h c hc]
  · rintro rfl
    refine ⟨?_, ?_, ?_⟩ <;>
      · simp only [advancesAt, declinesAt, unchangedAt]
        rw [List.countP_eq_zero]
        intro c _
        simp [changeAt_zero c, PF.isPos, PF.isNeg, PF.isZero]

/-- Witness for C7 at a concrete three-ticker frame and period. -/
theorem C7_witness :
    ((calculate_market_indicators twoSectorFrame).advances.getD 1 0 +
      (calculate_market_indicators twoSectorFrame).declines.getD 1 0 +
      (calculate_market_indicators twoSectorFrame).unchanged.getD 1 0 ≤
        twoSectorFrame.cols.length) ∧
    ((calculate_market_indicators twoSectorFrame).advances.getD 1 0 +
      (calculate_market_indicators twoSectorFrame).declines.getD 1 0 +
      (calculate_market_indicators twoSectorFrame).unchanged.getD 1 0 =
        twoSectorFrame.cols.length ↔
      ∀ c ∈ twoSectorFrame.cols, PF.isNan (changeAt c 1) = false) ∧
    ((1 : ℕ) = 0 →
      (calculate_market_indicators twoSectorFrame).advances.getD 1 0 = 0 ∧
      (calculate_market_indicators twoSectorFrame).declines.getD 1 0 = 0 ∧
      (calculate_market_indicators twoSectorFrame).unchanged.getD 1 0 = 0) :=
  C7_counts_partition twoSectorFrame 1 (by decide) (by decide)

/-! ### C3 -/

theorem length_ffillAux (last : Option ℚ) (xs : List (Option ℚ)) :
    (ffillAux last xs).length = xs.length := by
  induction xs generalizing last with
  | nil => rfl
  | cons x rest ih => simp [ffillAux, ih]

theorem length_ffill (xs : List (Option ℚ)) : (ffill xs).length = xs.length :=
  length_ffillAux none xs

theorem ffillAux_getD_gap (xs : List (Option ℚ)) :
    ∀ (last : Option ℚ) (k : ℕ), k < xs.length → xs.getD k none = none →
    (ffillAux last xs).getD k none =
      if k = 0 then last else (ffillAux last xs).getD (k - 1) none := by
  induction xs with
  | nil =>
      intro last k hk
      simp at hk
  | cons x rest ih =>
      intro last k hk hnone
      cases k with
      | zero =>
          rw [List.getD_cons_zero] at hnone
          simp [ffillAux, hnone]
      | succ j =>
          have hj : j < rest.length := by simpa using hk
          have hrn : rest.getD j none = none := by
            rw [List.getD_cons_succ] at hnone
            exact hnone
          simp only [ffillAux, List.getD_cons_succ, if_neg (Nat.succ_ne_zero j)]
          rw [ih _ j hj hrn]
          cases j with
          | zero => simp
          | succ i => simp

/-- A gap cell after an observed nonzero close: `pct_change` with its
default pad fill produces the finite value 0 there, not the missing
marker. -/
theorem pct_change_getD_gap (closes : List (Option ℚ)) (k : ℕ) (v : ℚ)
    (hk1 : 1 ≤ k) (hk : k < closes.length)
    (hgap : closes.getD k none = none) (hv : v ≠ 0)
    (hprev : (ffill closes).getD (k - 1) none = some v) :
    (pct_change closes).getD k PF.nan = PF.fin 0 := by
  unfold pct_change
  rw [getD_range_map _ _ hk]
  have hk0 : k ≠ 0 := by omega
  rw [if_neg hk0]
  have hcarry : (ffill closes).getD k none = (ffill closes).getD (k - 1) none := by
    unfold ffill
    rw [ffillAux_getD_gap closes none k hk hgap, if_neg hk0]
  rw [hcarry, hprev]
  simp [pctCell, hv, div_self hv]

/-- C3 counterexample: in the one-ticker frame aligned from a series with
no bar at minute 1, the aligned row at minute 1 is indeed absent, yet the
ticker IS counted — in Unchanged — at that period: the default pad fill of
`pct_change` turns the gap into a zero change instead of a missing one. -/
theorem C3_counterexample :
    (reindex gapSeries [0, 1, 2]).getD 1 (some (mkBar 0 0)) = none ∧
      (calculate_market_indicators gapFrame).unchanged.getD 1 0 = 1 ∧
      (calculate_market_indicators gapFrame).advances.getD 1 0 = 0 ∧
      (calculate_market_indicators gapFrame).declines.getD 1 0 = 0 :=
  ⟨by with_unfolding_all rfl, by with_unfolding_all rfl,
   by with_unfolding_all rfl, by with_unfolding_all rfl⟩

/-- C3 amended: after alignment a gap minute's fields are genuinely absent
for that ticker (no zero fill); however, because `pct_change` forward-fills
the last observed Close before differencing, a gap minute preceded by an
observed nonzero close gets the ordinary change 0 for that ticker, which is
therefore counted in Unchanged (and in neither Advances nor Declines) for
that period instead of being excluded from all three counts. -/
theorem C3_amended_gap_semantics :
    (∀ (series : List (ℕ × Bar)) (idx : List ℕ) (k : ℕ) (b : Bar),
      k < idx.length → (∀ p ∈ series, p.1 ≠ idx.getD k 0) →
      (reindex series idx).getD k (some b) = none) ∧
    (∀ (c : Ticker × List (Option Bar)) (k : ℕ) (v : ℚ),
      1 ≤ k → k < c.2.length → c.2.getD k none = none → v ≠ 0 →
      (ffill (c.2.map (Option.map Bar.cl))).getD (k - 1) none = some v →
      changeAt c k = PF.fin 0 ∧ PF.isZero (changeAt c k) = true ∧
        PF.isPos (changeAt c k) = false ∧ PF.isNeg (changeAt c k) = false) := by
  constructor
  · intro series idx k b hk hno
    unfold reindex
    rw [getD_map_lt idx _ (some b) 0 hk]
    have hfind : series.find? (fun p => decide (p.1 = idx.getD k 0)) = none := by
      rw [List.find?_eq_none]
      intro p hp
      simpa using hno p hp
    rw [hfind]
    rfl
  · intro c k v hk1 hk hgap hv hprev
    have hchange : changeAt c k = PF.fin 0 := by
      unfold changeAt tickerChanges
      apply pct_change_getD_gap _ _ v hk1 (by simpa using hk) _ hv hprev
      rw [getD_map_lt c.2 _ none none hk, hgap]
      rfl
    refine ⟨hchange, ?_, ?_, ?_⟩ <;> simp [hchange, PF.isZero, PF.isPos, PF.isNeg]

/-- Witness for the amended C3: both parts applied to the concrete gap
series and its aligned ticker column. -/
theorem C3_witness :
    (reindex gapSeries [0, 1, 2]).getD 1 (some (mkBar 0 0)) = none ∧
      (changeAt ("A", reindex gapSeries [0, 1, 2]) 1 = PF.fin 0 ∧
        PF.isZero (changeAt ("A", reindex gapSeries [0, 1, 2]) 1) = true ∧
        PF.isPos (changeAt ("A", reindex gapSeries [0, 1, 2]) 1) = false ∧
        PF.isNeg (changeAt ("A", reindex gapSeries [0, 1, 2]) 1) = false) :=
  ⟨C3_amended_gap_semantics.1 gapSeries [0, 1, 2] 1 (mkBar 0 0) (by decide)
      (by decide),
   C3_amended_gap_semantics.2 ("A", reindex gapSeries [0, 1, 2]) 1 1 (by decide)
      (by decide) (by with_unfolding_all rfl) (by decide)
      (by with_unfolding_all rfl)⟩

/-! ### C8 -/

theorem find?_key_nodup (cols : List (Ticker × List (Option Bar)))
    (hnd : (cols.map Prod.fst).Nodup) (c : Ticker × List (Option Bar))
    (hc : c ∈ cols) :
    cols.find? (fun c2 => decide (c2.1 = c.1)) = some c := by
  induction cols with
  | nil => cases hc
  | cons d rest ih =>
      rw [List.map_cons, List.nodup_cons] at hnd
      rcases List.mem_cons.mp hc with rfl | hc2
      · exact List.find?_cons_of_pos rest (by simp)
      · have hne : ¬ d.1 = c.1 := by
          intro h
          exact hnd.1 (h ▸ List.mem_map_of_mem Prod.fst hc2)
        rw [List.find?_cons_of_neg rest (by simpa using hne)]
        exact ih hnd.2 hc2

theorem filterMap_eq_self_of_some {α : Type} (l : List α) (f : α → Option α)
    (h : ∀ a ∈ l, f a = some a) : l.filterMap f = l := by
  induction l with
  | nil => rfl
  | cons a rest ih =>
      rw [List.filterMap_cons, h a (List.mem_cons_self a rest),
        ih (fun b hb => h b (List.mem_cons_of_mem a hb))]

/-- Selecting the tickers of one sector out of the combined frame yields
exactly the columns whose ticker is assigned that sector, in frame order,
provided ticker names are unique. -/
theorem selectCols_sector_eq_filter (d : Frame) (secOf : Ticker → String)
    (hnd : (d.cols.map Prod.fst).Nodup) (s : String) :
    selectCols d (sectorTickers (sectorsOf d.cols secOf) s) =
      ⟨d.index, d.cols.filter (fun c => decide (secOf c.1 = s))⟩ := by
  unfold selectCols sectorTickers sectorsOf
  congr 1
  rw [List.filter_map, List.map_map, List.filterMap_map]
  apply filterMap_eq_self_of_some
  intro c hcf
  have hc : c ∈ d.cols := List.mem_of_mem_filter hcf
  simp only [Function.comp]
  rw [find?_key_nodup d.cols hnd c hc]
  rfl

theorem sum_map_add {α : Type} (l : List α) (f g : α → ℕ) :
    (l.map (fun a => f a + g a)).sum = (l.map f).sum + (l.map g).sum := by
  induction l with
  | nil => rfl
  | cons a rest ih =>
      simp only [List.map_cons, List.sum_cons, ih]
      omega

theorem sum_if_mem (S : List String) (a : String) (x : ℕ) (hS : S.Nodup)
    (ha : a ∈ S) :
    (S.map (fun s => if a = s then x else 0)).sum = x := by
  induction S with
  | nil => cases ha
  | cons t rest ih =>
      rw [List.nodup_cons] at hS
      rcases List.mem_cons.mp ha with rfl | hmem
      · simp only [List.map_cons, List.sum_cons]
        have hzero : (rest.map (fun s => if a = s then x else 0)).sum = 0 := by
          apply List.sum_eq_zero
          intro y hy
          rcases List.mem_map.mp hy with ⟨s, hs, rfl⟩
          have : ¬ a = s := fun h => hS.1 (h ▸ hs)
          simp [this]
        rw [hzero]
        simp
      · have hne : ¬ a = t := by
          rintro rfl
          exact hS.1 hmem
        simp only [List.map_cons, List.sum_cons, if_neg hne]
        rw [ih hS.2 hmem]
        omega

/-- Counting over a list equals the sum, over a duplicate-free list of keys
covering every element, of the counts restricted to each key. -/
theorem countP_partition {α : Type} (p : α → Bool) (sec : α → String)
    (l : List α) (S : List String) (hS : S.Nodup) (hmem : ∀ a ∈ l, sec a ∈ S) :
    (S.map (fun s => l.countP (fun a => p a && decide (sec a = s)))).sum =
      l.countP p := by
  induction l with
  | nil => simp
  | cons a rest ih =>
      have hrest : ∀ b ∈ rest, sec b ∈ S :=
        fun b hb => hmem b (List.mem_cons_of_mem a hb)
      simp only [List.countP_cons]
      rw [show (S.map (fun s => rest.countP (fun b => p b && decide (sec b = s)) +
            if (p a && decide (sec a = s)) = true then 1 else 0)) =
          (S.map (fun s => rest.countP (fun b => p b && decide (sec b = s)) +
            (fun s => if (p a && decide (sec a = s)) = true then 1 else 0) s))
        from rfl]
      rw [sum_map_add S _ _, ih hrest]
      congr 1
      by_cases hpa : p a = true
      · have hpt : ∀ s ∈ S, (if (p a && decide (sec a = s)) = true then (1 : ℕ) else 0) =
            if sec a = s then 1 else 0 := by
          intro s _
          simp [hpa]
        rw [List.map_congr_left hpt,
          sum_if_mem S (sec a) 1 hS (hmem a (List.mem_cons_self a rest)), if_pos hpa]
      · have hpf : ∀ s ∈ S, (if (p a && decide (sec a = s)) = true then (1 : ℕ) else 0) = 0 := by
          intro s _
          simp [hpa]
        rw [List.map_congr_left hpf, if_neg hpa]
        simp

/-- Summing any per-ticker count over the sector sub-frames reproduces the
count over the whole frame. -/
theorem countP_sector_sum (d : Frame) (secOf : Ticker → String)
    (hnd : (d.cols.map Prod.fst).Nodup) (p : Ticker × List (Option Bar) → Bool) :
    ((sectorValues (sectorsOf d.cols secOf)).map (fun s =>
      (selectCols d (sectorTickers (sectorsOf d.cols secOf) s)).cols.countP p)).sum =
      d.cols.countP p := by
  have hsel : ∀ s ∈ sectorValues (sectorsOf d.cols secOf),
      (selectCols d (sectorTickers (sectorsOf d.cols secOf) s)).cols.countP p =
        d.cols.countP (fun c => p c && decide (secOf c.1 = s)) := by
    intro s _
    rw [selectCols_sector_eq_filter d secOf hnd s]
    exact List.countP_filter p _ d.cols
  rw [List.map_congr_left hsel]
  apply countP_partition p (fun c => secOf c.1) d.cols _ (List.nodup_dedup _)
  intro c hc
  rw [List.mem_dedup]
  unfold sectorsOf
  rw [List.map_map]
  exact List.mem_map_of_mem _ hc

/-- C8: partitioning the surviving universe by sector and summing each
sector's Advances (respectively Declines) at a period with no missing data
reproduces the universe-wide Advances (respectively Declines), the same
routine `calculate_market_indicators` being applied to the full frame and
to every sector-restricted sub-frame. -/
theorem C8_sector_aggregation (d : Frame) (secOf : Ticker → String) (k : ℕ)
    (hnd : (d.cols.map Prod.fst).Nodup) (hk : k < d.index.length)
    (hng : ∀ c ∈ d.cols, PF.isNan (changeAt c k) = false) :
    (((sectorValues (sectorsOf d.cols secOf)).map (fun s =>
      (calculate_market_indicators
        (selectCols d (sectorTickers (sectorsOf d.cols secOf) s))).advances.getD k 0)).sum =
      (calculate_market_indicators d).advances.getD k 0) ∧
    (((sectorValues (sectorsOf d.cols secOf)).map (fun s =>
      (calculate_market_indicators
        (selectCols d (sectorTickers (sectorsOf d.cols secOf) s))).declines.getD k 0)).sum =
      (calculate_market_indicators d).declines.getD k 0) := by
  have htab : ∀ s ∈ sectorValues (sectorsOf d.cols secOf),
      ((calculate_market_indicators
          (selectCols d (sectorTickers (sectorsOf d.cols secOf) s))).advances.getD k 0 =
        (selectCols d (sectorTickers (sectorsOf d.cols secOf) s)).cols.countP
          (fun c => PF.isPos (changeAt c k))) ∧
      ((calculate_market_indicators
          (selectCols d (sectorTickers (sectorsOf d.cols secOf) s))).declines.getD k 0 =
        (selectCols d (sectorTickers (sectorsOf d.cols secOf) s)).cols.countP
          (fun c => PF.isNeg (changeAt c k))) := by
    intro s _
    have hkidx : k < (selectCols d (sectorTickers (sectorsOf d.cols secOf) s)).index.length := hk
    exact ⟨calc_advances_getD _ hkidx, calc_declines_getD _ hkidx⟩
  constructor
  · rw [List.map_congr_left (fun s hs => (htab s hs).1), calc_advances_getD d hk]
    exact countP_sector_sum d secOf hnd _
  · rw [List.map_congr_left (fun s hs => (htab s hs).2), calc_declines_getD d hk]
    exact countP_sector_sum d secOf hnd _

/-- Witness for C8: the three-ticker two-sector frame at period 1, where no
ticker's change is missing. -/
theorem C8_witness :
    (((sectorValues (sectorsOf twoSectorFrame.cols twoSectorOf)).map (fun s =>
      (calculate_market_indicators
        (selectCols twoSectorFrame
          (sectorTickers (sectorsOf twoSectorFrame.cols twoSectorOf) s))).advances.getD 1 0)).sum =
      (calculate_market_indicators twoSectorFrame).advances.getD 1 0) ∧
    (((sectorValues (sectorsOf twoSectorFrame.cols twoSectorOf)).map (fun s =>
      (calculate_market_indicators
        (selectCols twoSectorFrame
          (sectorTickers (sectorsOf twoSectorFrame.cols twoSectorOf) s))).declines.getD 1 0)).sum =
      (calculate_market_indicators twoSectorFrame).declines.getD 1 0) :=
  C8_sector_aggregation twoSectorFrame twoSectorOf 1 (by decide) (by decide)
    (by with_unfolding_all decide)

/-! ### C10 -/

theorem sectorLoop_frame (sectors : List (Ticker × String)) (d : Frame)
    (S : List String) : (sectorLoop sectors d S).1 = d := by
  induction S with
  | nil => rfl
  | cons s rest ih => simpa [sectorLoop, selectCols_st] using ih

/-- C10: the indicator routine is read-only on its input frame — the
state-threaded model returns the frame unchanged together with exactly the
indicator table of the pure routine; the combined frame is identical after
the universe plus all per-sector computations; and the universe indicators
are the same whether the sector computations run after them or before
them. -/
theorem C10_frame_readonly (d : Frame) (secOf : Ticker → String) :
    (calculate_market_indicators_st d).1 = d ∧
    (calculate_market_indicators_st d).2 = calculate_market_indicators d ∧
    (run_universe_then_sectors d secOf).1 = d ∧
    (run_universe_then_sectors d secOf).2.1 = calculate_market_indicators d ∧
    (run_sectors_then_universe d secOf).2.1 = calculate_market_indicators d := by
  refine ⟨rfl, rfl, ?_, rfl, ?_⟩
  · exact sectorLoop_frame _ _ _
  · show (calculate_market_indicators_st
        (sectorLoop (sectorsOf d.cols secOf) d (sectorValues (sectorsOf d.cols secOf))).1).2 =
      calculate_market_indicators d
    rw [sectorLoop_frame]
    rfl

end Breadth

